import Mathlib

/-!
Shallow embedding of the SPWN-language parser (src/parser.rs) and of the
bytecode interpreter skeleton (src/interpreter/interpreter.rs), together with
theorems settling the specification's claims about them.

Conventions of the embedding:
* Slotmap keys (`ExprKey`, `StmtKey`, `ValueKey`) are modelled as insertion
  indices into an append-only list; the source never removes entries during a
  parse or an execution, so indices are exactly the stable handles.
* Rust's general recursion is modelled with an explicit fuel parameter; fuel
  exhaustion is a distinguished outcome, never reached when enough fuel is
  supplied.
* `panic` outcomes model `unwrap`/`todo!()` panics and out-of-bounds indexing.
-/

/-- `CodeArea` (src/parser.rs, src/sources): a source handle plus a byte span.
All tokens of one parse share a single source, so the embedding keeps only the
span. -/
structure CodeArea where
  span : Nat × Nat
deriving DecidableEq, Repr

/-- The lexer's token type.  The lexer itself is upstream of src/; these are the
variants the parser references (spec section 6).  The `Float` payload stands for
the bit pattern of the source's `f64`; the parser only copies it and never
inspects it. -/
inductive Token where
  | Int (n : Nat)
  | Float (bits : Nat)
  | String (s : String)
  | Ident (name : String)
  | True
  | False
  | LParen
  | RParen
  | LSqBracket
  | RSqBracket
  | LBracket
  | RBracket
  | Comma
  | Let
  | If
  | Else
  | While
  | For
  | In
  | Assign
  | Eol
  | Eof
  | Plus
  | Minus
  | Mult
  | Div
  | Mod
  | Pow
deriving DecidableEq, Repr

/-- `Tokens` (src/parser.rs:9): tokens with their spans. -/
abbrev Tokens := List (Token × Nat × Nat)

/-- `Literal` (src/parser.rs:102).  `Int` carries a `usize` in the source. -/
inductive Literal where
  | Int (n : Nat)
  | Float (bits : Nat)
  | String (s : String)
  | Bool (b : Bool)
deriving DecidableEq, Repr

/-- Slotmap keys, modelled as insertion indices (see the header note). -/
abbrev ExprKey := Nat

abbrev StmtKey := Nat

/-- `Expression` (src/parser.rs:123). -/
inductive Expression where
  | Literal (l : Literal)
  | Op (left : ExprKey) (op : Token) (right : ExprKey)
  | Unary (op : Token) (operand : ExprKey)
  | Var (name : String)
  | Array (elems : List ExprKey)
  | Index (base : ExprKey) (index : ExprKey)
  | Empty
deriving DecidableEq, Repr

abbrev Statements := List StmtKey

/-- `Statement` (src/parser.rs:141). -/
inductive Statement where
  | Expr (e : ExprKey)
  | Declaration (name : String) (value : ExprKey)
  | If (branches : List (ExprKey × Statements)) (else_branch : Option Statements)
  | While (cond : ExprKey) (code : Statements)
  | For (var : String) (iterator : ExprKey) (code : Statements)
deriving DecidableEq, Repr

/-- `ASTData` (src/parser.rs:39): the two AST arenas. -/
structure ASTData where
  exprs : List (Expression × CodeArea)
  stmts : List (Statement × CodeArea)
deriving DecidableEq, Repr

/-- `ASTData::insert_expr` (src/parser.rs:60): insert and return the fresh key. -/
def ASTData.insert_expr (ad : ASTData) (e : Expression) (area : CodeArea) :
    ExprKey × ASTData :=
  (ad.exprs.length, ⟨ad.exprs ++ [(e, area)], ad.stmts⟩)

/-- `ASTData::insert_stmt` (src/parser.rs:63). -/
def ASTData.insert_stmt (ad : ASTData) (s : Statement) (area : CodeArea) :
    StmtKey × ASTData :=
  (ad.stmts.length, ⟨ad.exprs, ad.stmts ++ [(s, area)]⟩)

/-- `ASTData::get_expr` (src/parser.rs:54); the source panics on an unknown key. -/
def ASTData.get_expr (ad : ASTData) (k : ExprKey) : Option Expression :=
  (ad.exprs.get? k).map Prod.fst

/-- `ASTData::area` for expression keys (src/parser.rs:48); the source panics on
an unknown key, and the parser only ever asks for areas of keys it created. -/
def ASTData.exprArea (ad : ASTData) (k : ExprKey) : CodeArea :=
  (ad.exprs.getD k (.Empty, ⟨(0, 0)⟩)).2

/-- `SyntaxError` (src/parser/error.rs).  The source's `Expected` stores two
strings produced by the upstream lexer's `tok_typ`/`tok_name` methods; the
embedding keeps the offending token itself, which determines both. -/
inductive SyntaxError where
  | Expected (expected : String) (found : Token) (area : CodeArea)
  | UnmatchedChar (for_char : String) (not_found : String) (area : CodeArea)
  | InvalidEscape (character : String) (area : CodeArea)
deriving DecidableEq, Repr

/-- Parser results: `ok`/`err` mirror the source's `Result<_, SyntaxError>`;
`nofuel` marks exhaustion of the step budget that stands in for Rust's general
recursion. -/
inductive PRes (α : Type) where
  | ok (a : α)
  | err (e : SyntaxError)
  | nofuel
deriving Repr

instance : Monad PRes where
  pure := .ok
  bind x f :=
    match x with
    | .ok a => f a
    | .err e => .err e
    | .nofuel => .nofuel

/-- `OpType` (src/parser.rs:377). -/
inductive OpType where
  | LeftAssoc
  | RightAssoc
  | Unary
deriving DecidableEq, Repr

/-- `infix_prec`, expanded from the `operators!` table (src/parser.rs:453-468).
The active rows are: row 0 `LeftAssoc [Plus Minus]`, row 1 `Unary [Minus]`,
row 2 `LeftAssoc [Mult Div Mod]`, row 3 `RightAssoc [Pow]`.  The macro returns
the first non-Unary row containing the token, else the sentinel 1000000. -/
def infix_prec (tok : Token) : Nat :=
  match tok with
  | .Plus => 0
  | .Minus => 0
  | .Mult => 2
  | .Div => 2
  | .Mod => 2
  | .Pow => 3
  | _ => 1000000

/-- `unary_prec` (same macro expansion): the first Unary row containing the
token, else 1000000.  `Minus` appears in row 0 (LeftAssoc) and row 1 (Unary). -/
def unary_prec (tok : Token) : Nat :=
  match tok with
  | .Minus => 1
  | _ => 1000000

/-- `is_unary` (same macro expansion): membership in some Unary row. -/
def is_unary (tok : Token) : Bool :=
  tok = .Minus

/-- `prec_amount` (same macro expansion): the number of rows. -/
def prec_amount : Nat := 4

/-- `prec_type` (same macro expansion).  The source hits `unreachable!()` for an
index outside the table; both call sites guard the index, so the default arm is
never taken with the source's inputs. -/
def prec_type (prec : Nat) : OpType :=
  match prec with
  | 0 => .LeftAssoc
  | 1 => .Unary
  | 2 => .LeftAssoc
  | 3 => .RightAssoc
  | _ => .LeftAssoc

/-- The relative token index of the `tok!`/`span!` macros (src/parser.rs:184):
`pos + off`, clamped to 0 from below. -/
def tokIdx (pos : Nat) (off : Int) : Nat :=
  (max 0 ((pos : Int) + off)).toNat

/-- `tok!` (src/parser.rs:184).  Out-of-range access panics in Rust; streams end
in `Eof`, which the parser never steps past, so the `Eof` default never differs
from the source's behaviour on lexer-produced streams. -/
def tokAt (toks : Tokens) (pos : Nat) (off : Int) : Token :=
  (toks.getD (tokIdx pos off) (.Eof, 0, 0)).1

/-- `span!` (src/parser.rs:194). -/
def spanAt (toks : Tokens) (pos : Nat) (off : Int) : Nat × Nat :=
  (toks.getD (tokIdx pos off) (.Eof, 0, 0)).2

/-- The loop shared by `parse_op` (src/parser.rs:636-644) and the unary branch
of `parse_unit` (src/parser.rs:548-556): advance `next_prec` past consecutive
Unary rows, wrapping to the sentinel 1000000 when the table is exhausted. -/
def skip_unary_rows (fuel : Nat) (np : Nat) : Nat :=
  match fuel with
  | 0 => np
  | f + 1 =>
    if np = 1000000 then np
    else if prec_type np = .Unary then
      (if np + 1 = prec_amount then 1000000 else skip_unary_rows f (np + 1))
    else np

/-- The full `next_prec` computation: start one row above `prec` (or at the
sentinel when the table ends) and skip the consecutive Unary rows.  The fuel
`prec_amount` bounds the loop's iterations. -/
def next_prec_after (prec : Nat) : Nat :=
  skip_unary_rows prec_amount (if prec + 1 < prec_amount then prec + 1 else 1000000)

/-- `check_tok!` (src/parser.rs:232): require one specific token and advance past
it, else raise `Expected`. -/
def expectTok (toks : Tokens) (pos : Nat) (t : Token) (expected : String) : PRes Nat :=
  if tokAt toks pos 0 = t then .ok (pos + 1)
  else .err (.Expected expected (tokAt toks pos 0) ⟨spanAt toks pos 0⟩)

/-- The `skip_toks!(Eol)` loop (src/parser.rs:291): advance while the current
token is `Eol`.  Fuel `toks.length` always suffices because the run of `Eol`
tokens is contained in the stream. -/
def skip_eols (fuel : Nat) (toks : Tokens) (pos : Nat) : Nat :=
  match fuel with
  | 0 => pos
  | f + 1 => if tokAt toks pos 0 = .Eol then skip_eols f toks (pos + 1) else pos

/-- The statement-terminator tail of `parse_statement` (src/parser.rs:759-762):
unless the token before the current position is `}`, require an `Eol` (`;`)
token, then skip every consecutive `Eol`.  Returns the new position. -/
def stmt_terminator (toks : Tokens) (pos : Nat) : PRes Nat :=
  if tokAt toks pos (-1) ≠ .RBracket then
    if tokAt toks pos 0 = .Eol then .ok (skip_eols toks.length toks (pos + 1))
    else .err (.Expected ";" (tokAt toks pos 0) ⟨spanAt toks pos 0⟩)
  else .ok (skip_eols toks.length toks pos)

mutual

/-- `parse_unit` (src/parser.rs:477): literals, variables, parenthesised
expressions, array literals and unary operators. -/
def parse_unit (fuel : Nat) (toks : Tokens) (ad : ASTData) (pos : Nat) :
    PRes (ExprKey × Nat × ASTData) :=
  match fuel with
  | 0 => .nofuel
  | f + 1 =>
    let start := spanAt toks pos 0
    match tokAt toks pos 0 with
    | .Int n =>
      let (k, ad) := ad.insert_expr (.Literal (.Int n)) ⟨spanAt toks pos 0⟩
      .ok (k, pos + 1, ad)
    | .Float bits =>
      let (k, ad) := ad.insert_expr (.Literal (.Float bits)) ⟨spanAt toks pos 0⟩
      .ok (k, pos + 1, ad)
    | .True =>
      let (k, ad) := ad.insert_expr (.Literal (.Bool true)) ⟨spanAt toks pos 0⟩
      .ok (k, pos + 1, ad)
    | .False =>
      let (k, ad) := ad.insert_expr (.Literal (.Bool false)) ⟨spanAt toks pos 0⟩
      .ok (k, pos + 1, ad)
    | .String s =>
      let (k, ad) := ad.insert_expr (.Literal (.String s)) ⟨spanAt toks pos 0⟩
      .ok (k, pos + 1, ad)
    | .Ident name =>
      let (k, ad) := ad.insert_expr (.Var name) ⟨spanAt toks pos 0⟩
      .ok (k, pos + 1, ad)
    | .LParen =>
      let pos := pos + 1
      if tokAt toks pos 0 = .RParen then
        let (k, ad) := ad.insert_expr .Empty ⟨(start.fst, (spanAt toks pos (-1)).snd)⟩
        .ok (k, pos + 1, ad)
      else do
        let (value, pos, ad) ← parse_expr f toks ad pos
        let pos ← expectTok toks pos .RParen ")"
        .ok (value, pos, ad)
    | .LSqBracket => do
      let (elements, pos, ad) ← parse_array_elems f toks ad (pos + 1) []
      let (k, ad) := ad.insert_expr (.Array elements)
        ⟨(start.fst, (spanAt toks pos (-1)).snd)⟩
      .ok (k, pos, ad)
    | t =>
      if is_unary t then do
        let pos := pos + 1
        let prec := unary_prec t
        let next_prec := next_prec_after prec
        let (value, pos, ad) ←
          if next_prec ≠ 1000000 then parse_op f toks ad pos next_prec
          else parse_value f toks ad pos
        let (k, ad) := ad.insert_expr (.Unary t value)
          ⟨(start.fst, (spanAt toks pos (-1)).snd)⟩
        .ok (k, pos, ad)
      else .err (.Expected "expression" t ⟨spanAt toks pos 0⟩)

termination_by structural fuel

/-- The element loop of the array-literal branch of `parse_unit`
(src/parser.rs:529-537): after each element a `]` or `,` is required; a `,` is
skipped; the terminating `]` is consumed. -/
def parse_array_elems (fuel : Nat) (toks : Tokens) (ad : ASTData) (pos : Nat)
    (elements : List ExprKey) : PRes (List ExprKey × Nat × ASTData) :=
  match fuel with
  | 0 => .nofuel
  | f + 1 =>
    if tokAt toks pos 0 = .RSqBracket then .ok (elements, pos + 1, ad)
    else do
      let (elem, pos, ad) ← parse_expr f toks ad pos
      match tokAt toks pos 0 with
      | .RSqBracket => parse_array_elems f toks ad pos (elements ++ [elem])
      | .Comma => parse_array_elems f toks ad (pos + 1) (elements ++ [elem])
      | t => .err (.Expected "] or ," t ⟨spanAt toks pos 0⟩)

termination_by structural fuel

/-- `parse_value` (src/parser.rs:583): a unit followed by postfix operators. -/
def parse_value (fuel : Nat) (toks : Tokens) (ad : ASTData) (pos : Nat) :
    PRes (ExprKey × Nat × ASTData) :=
  match fuel with
  | 0 => .nofuel
  | f + 1 => do
    let (value, pos, ad) ← parse_unit f toks ad pos
    let start := (ad.exprArea value).span
    parse_postfix f toks ad pos value start

termination_by structural fuel

/-- The postfix loop of `parse_value` (src/parser.rs:593-608): indexing
`base[index]`; `start` is the span of the original unit. -/
def parse_postfix (fuel : Nat) (toks : Tokens) (ad : ASTData) (pos : Nat)
    (value : ExprKey) (start : Nat × Nat) : PRes (ExprKey × Nat × ASTData) :=
  match fuel with
  | 0 => .nofuel
  | f + 1 =>
    match tokAt toks pos 0 with
    | .LSqBracket => do
      let (index, pos, ad) ← parse_expr f toks ad (pos + 1)
      let pos ← expectTok toks pos .RSqBracket "]"
      let (k, ad) := ad.insert_expr (.Index value index)
        ⟨(start.fst, (spanAt toks pos (-1)).snd)⟩
      parse_postfix f toks ad pos k start
    | _ => .ok (value, pos, ad)

termination_by structural fuel

/-- `parse_expr` (src/parser.rs:616): `parse_op` at precedence 0. -/
def parse_expr (fuel : Nat) (toks : Tokens) (ad : ASTData) (pos : Nat) :
    PRes (ExprKey × Nat × ASTData) :=
  match fuel with
  | 0 => .nofuel
  | f + 1 => parse_op f toks ad pos 0

termination_by structural fuel

/-- `parse_op` (src/parser.rs:628): precedence climbing.  The left operand is
parsed at the next non-Unary level (or as a value at the end of the table). -/
def parse_op (fuel : Nat) (toks : Tokens) (ad : ASTData) (pos : Nat) (prec : Nat) :
    PRes (ExprKey × Nat × ASTData) :=
  match fuel with
  | 0 => .nofuel
  | f + 1 => do
    let next_prec := next_prec_after prec
    let (left, pos, ad) ←
      if next_prec ≠ 1000000 then parse_op f toks ad pos next_prec
      else parse_value f toks ad pos
    parse_op_loop f toks ad pos prec next_prec left

termination_by structural fuel

/-- The `while infix_prec(tok) == prec` loop of `parse_op`
(src/parser.rs:649-664): left-associative rows parse the right operand one
level up, right-associative rows at the same level. -/
def parse_op_loop (fuel : Nat) (toks : Tokens) (ad : ASTData) (pos : Nat)
    (prec next_prec : Nat) (left : ExprKey) : PRes (ExprKey × Nat × ASTData) :=
  match fuel with
  | 0 => .nofuel
  | f + 1 =>
    if infix_prec (tokAt toks pos 0) = prec then do
      let op := tokAt toks pos 0
      let pos := pos + 1
      let (right, pos, ad) ←
        if prec_type prec = .LeftAssoc then
          (if next_prec ≠ 1000000 then parse_op f toks ad pos next_prec
           else parse_value f toks ad pos)
        else parse_op f toks ad pos prec
      let left_span := (ad.exprArea left).span
      let right_span := (ad.exprArea right).span
      let (k, ad) := ad.insert_expr (.Op left op right)
        ⟨(left_span.fst, right_span.snd)⟩
      parse_op_loop f toks ad pos prec next_prec k
    else .ok (left, pos, ad)

termination_by structural fuel

/-- The statement-kind match of `parse_statement` (src/parser.rs:688-757). -/
def parse_statement_kind (fuel : Nat) (toks : Tokens) (ad : ASTData) (pos : Nat) :
    PRes (Statement × Nat × ASTData) :=
  match fuel with
  | 0 => .nofuel
  | f + 1 =>
    match tokAt toks pos 0 with
    | .Let =>
      let pos := pos + 1
      match tokAt toks pos 0 with
      | .Ident var_name => do
        let pos := pos + 1
        let pos ← expectTok toks pos .Assign "="
        let (value, pos, ad) ← parse_expr f toks ad pos
        .ok (.Declaration var_name value, pos, ad)
      | t => .err (.Expected "variable name" t ⟨spanAt toks pos 0⟩)
    | .If => do
      let pos := pos + 1
      let (cond, pos, ad) ← parse_expr f toks ad pos
      let pos ← expectTok toks pos .LBracket "\x7b"
      let (code, pos, ad) ← parse_statements f toks ad pos
      let pos ← expectTok toks pos .RBracket "\x7d"
      parse_if_branches f toks ad pos [(cond, code)]
    | .While => do
      let pos := pos + 1
      let (cond, pos, ad) ← parse_expr f toks ad pos
      let pos ← expectTok toks pos .LBracket "\x7b"
      let (code, pos, ad) ← parse_statements f toks ad pos
      let pos ← expectTok toks pos .RBracket "\x7d"
      .ok (.While cond code, pos, ad)
    | .For => do
      let pos := pos + 1
      match tokAt toks pos 0 with
      | .Ident var => do
        let pos := pos + 1
        let pos ← expectTok toks pos .In "in"
        let (iterator, pos, ad) ← parse_expr f toks ad pos
        let pos ← expectTok toks pos .LBracket "\x7b"
        let (code, pos, ad) ← parse_statements f toks ad pos
        let pos ← expectTok toks pos .RBracket "\x7d"
        .ok (.For var iterator code, pos, ad)
      | t => .err (.Expected "variable name" t ⟨spanAt toks pos 0⟩)
    | _ => do
      let (value, pos, ad) ← parse_expr f toks ad pos
      .ok (.Expr value, pos, ad)

termination_by structural fuel

/-- The `while let Token::Else` loop of the `if` branch
(src/parser.rs:708-723): `else if` extends `branches`; a final `else` sets
`else_branch` and breaks. -/
def parse_if_branches (fuel : Nat) (toks : Tokens) (ad : ASTData) (pos : Nat)
    (branches : List (ExprKey × Statements)) : PRes (Statement × Nat × ASTData) :=
  match fuel with
  | 0 => .nofuel
  | f + 1 =>
    if tokAt toks pos 0 = .Else then
      let pos := pos + 1
      if tokAt toks pos 0 = .If then do
        let pos := pos + 1
        let (cond, pos, ad) ← parse_expr f toks ad pos
        let pos ← expectTok toks pos .LBracket "\x7b"
        let (code, pos, ad) ← parse_statements f toks ad pos
        let pos ← expectTok toks pos .RBracket "\x7d"
        parse_if_branches f toks ad pos (branches ++ [(cond, code)])
      else do
        let pos ← expectTok toks pos .LBracket "\x7b"
        let (temp, pos, ad) ← parse_statements f toks ad pos
        let pos ← expectTok toks pos .RBracket "\x7d"
        .ok (.If branches (some temp), pos, ad)
    else .ok (.If branches none, pos, ad)

termination_by structural fuel

/-- `parse_statement` (src/parser.rs:670): the statement kind, the terminator
rule, then arena insertion with the statement's full span. -/
def parse_statement (fuel : Nat) (toks : Tokens) (ad : ASTData) (pos : Nat) :
    PRes (StmtKey × Nat × ASTData) :=
  match fuel with
  | 0 => .nofuel
  | f + 1 => do
    let start := spanAt toks pos 0
    let (stmt, pos2, ad) ← parse_statement_kind f toks ad pos
    let pos3 ← stmt_terminator toks pos2
    let (k, ad) := ad.insert_stmt stmt ⟨(start.fst, (spanAt toks pos3 (-1)).snd)⟩
    .ok (k, pos3, ad)

termination_by structural fuel

/-- `parse_statements` (src/parser.rs:772): collect statements until `Eof` or
`}`; neither terminator is consumed. -/
def parse_statements (fuel : Nat) (toks : Tokens) (ad : ASTData) (pos : Nat) :
    PRes (Statements × Nat × ASTData) :=
  match fuel with
  | 0 => .nofuel
  | f + 1 =>
    match tokAt toks pos 0 with
    | .Eof => .ok ([], pos, ad)
    | .RBracket => .ok ([], pos, ad)
    | _ => do
      let (stmt, pos, ad) ← parse_statement f toks ad pos
      let (rest, pos, ad) ← parse_statements f toks ad pos
      .ok (stmt :: rest, pos, ad)

termination_by structural fuel

end

/-- `parse` (src/parser.rs:790): run `parse_statements` from position 0 and
return its statements; the end-of-file check in the source is commented out, so
the final position is discarded without any check. -/
def parse (fuel : Nat) (toks : Tokens) : PRes (Statements × ASTData) := do
  let (stmts, _, ad) ← parse_statements fuel toks ⟨[], []⟩ 0
  .ok (stmts, ad)

/-- AST trees with the arena keys resolved, used to state claims about AST
shapes; `Bad` marks a dangling key or fuel exhaustion and is never produced
when resolving a parser result with enough fuel. -/
inductive ETree where
  | Lit (l : Literal)
  | Op (left : ETree) (op : Token) (right : ETree)
  | Unary (op : Token) (operand : ETree)
  | Var (name : String)
  | Arr (elems : List ETree)
  | Index (base : ETree) (index : ETree)
  | EmptyT
  | Bad

/-- Resolve an expression key through the arena into a deep tree. -/
def resolveE (fuel : Nat) (ad : ASTData) (k : ExprKey) : ETree :=
  match fuel with
  | 0 => .Bad
  | f + 1 =>
    match ad.get_expr k with
    | none => .Bad
    | some e =>
      match e with
      | .Literal l => .Lit l
      | .Op a op b => .Op (resolveE f ad a) op (resolveE f ad b)
      | .Unary op a => .Unary op (resolveE f ad a)
      | .Var s => .Var s
      | .Array es => .Arr (es.map (resolveE f ad))
      | .Index b i => .Index (resolveE f ad b) (resolveE f ad i)
      | .Empty => .EmptyT

/-- Parse a token stream as a single expression (the way statement parsing
enters expressions) and resolve the root; `none` on a parse error. -/
def parseRootE (toks : Tokens) : Option ETree :=
  match parse_expr 100 toks ⟨[], []⟩ 0 with
  | .ok (k, _, ad) => some (resolveE 100 ad k)
  | _ => none

/-- `ValueType` (spec section 3; seeded into the registry by `Globals::init`,
src/interpreter/interpreter.rs:30-46). -/
inductive ValueType where
  | Int
  | Float
  | String
  | Bool
  | Empty
  | Array
  | Dict
  | Maybe
  | TypeIndicator
  | Pattern
  | Group
  | TriggerFunc
  | Macro
deriving DecidableEq, Repr

/-- `Pattern` (src/interpreter/value.rs is not under src/); only `Any` is in
scope (spec section 3). -/
inductive PatternV where
  | Any
deriving DecidableEq, Repr

/-- Heap keys of the value slotmap (src/interpreter/interpreter.rs:13),
modelled as insertion indices. -/
abbrev ValueKey := Nat

/-- Modelled from the spec: `Value` lives in src/interpreter/value.rs, which is
not under src/; the variants are the ones of spec section 3.  A stored value —
the `StoredValue` struct of src/interpreter/interpreter.rs:17 — is a value
paired with its defining area and is written `Value × CodeArea` here, nested
directly inside the aggregate variants.  The `Float` payload again stands for
the bit pattern of the source's `f64`. -/
inductive Value where
  | Int (n : Int)
  | Float (bits : Nat)
  | Str (s : String)
  | Bool (b : Bool)
  | Empty
  | Maybe (k : Option ValueKey)
  | Array (elems : List (Value × CodeArea))
  | Dict (entries : List (String × Value × CodeArea))
  | TypeIndicator (t : ValueType)
  | Pattern (p : PatternV)
  | Macro (func_id : Nat)
      (args : List (String × Option (Value × CodeArea) × Option (Value × CodeArea)))
      (ret_type : Value × CodeArea)
  | Group
  | TriggerFunc

/-- `StoredValue` (src/interpreter/interpreter.rs:17): `.1` is the `value`
field, `.2` the `def_area` field. -/
abbrev StoredValue := Value × CodeArea

/-- `Value::into_stored` used by execute's arms. -/
def Value.into_stored (v : Value) (area : CodeArea) : StoredValue := (v, area)

/-- Modelled from the spec: `RuntimeError` lives in src/interpreter/error.rs,
which is not under src/; the variants and fields are those of spec section 7. -/
inductive RuntimeError where
  | TypeMismatch (values : List StoredValue) (area : CodeArea)
  | UndefinedType (name : String) (area : CodeArea)
  | CannotCall (base : StoredValue) (area : CodeArea)

/-- Modelled from the spec: the `Instruction` enum lives in the compiler, which
is not under src/; the variants are exactly the ones matched by execute
(src/interpreter/interpreter.rs:96-272), with pool ids as numbers. -/
inductive Instruction where
  | Plus
  | Minus
  | Mult
  | Div
  | Mod
  | Pow
  | Eq
  | NotEq
  | Greater
  | GreaterEq
  | Lesser
  | LesserEq
  | LoadConst (id : Nat)
  | Negate
  | Not
  | LoadVar (id : Nat)
  | SetVar (id : Nat)
  | Print
  | LoadType (id : Nat)
  | BuildArray (len : Nat)
  | PushEmpty
  | PopTop
  | Jump (id : Nat)
  | JumpIfFalse (id : Nat)
  | ToIter
  | IterNext (n : Nat)
  | BuildDict (id : Nat)
  | Return
  | Continue
  | Break
  | MakeMacro (id : Nat)
  | PushAnyPattern
  | MakeMacroPattern (n : Nat)
  | Index
  | Call (id : Nat)
  | TriggerFuncCall
  | SaveContexts
  | ReviseContexts
  | MergeContexts
  | PushNone
  | WrapMaybe
  | PushContextGroup
  | PopContextGroup
  | PushTriggerFnValue
  | TypeDef (n : Nat)
  | Impl (n : Nat)
  | Instance (n : Nat)
  | EnterScope
  | ExitScope
deriving DecidableEq, Repr

/-- Modelled from the spec: `Code` lives in the compiler, not under src/.  It
carries per-function instruction lists (with the source area of each
instruction, which is what `get_bytecode_area` reads) and the pool tables of
spec section 3, addressed by position. -/
structure Code where
  instructions : List (List (Instruction × CodeArea))
  constants : List Value
  names : List String
  name_sets : List (List String)
  destinations : List Nat
  macro_build_info : List (Nat × List (String × Bool × Bool))

/-- `code.instructions[func].0` as read by execute's loop. -/
def Code.instrsOf (code : Code) (func : Nat) : List (Instruction × CodeArea) :=
  code.instructions.getD func []

/-- `Code::get_bytecode_area` as used by execute. -/
def Code.get_bytecode_area (code : Code) (func i : Nat) : CodeArea :=
  ((code.instrsOf func).getD i (.PushEmpty, ⟨(0, 0)⟩)).2

/-- The instruction dispatched at index `i` (`code.instructions[func].0[i]`,
src/interpreter/interpreter.rs:111); `none` models out-of-bounds indexing,
excluded by the loop guard `i < len`. -/
def instrAt (code : Code) (func i : Nat) : Option Instruction :=
  ((code.instrsOf func).get? i).map Prod.fst

/-- Modelled from the spec: `FullContext` lives in src/interpreter/contexts.rs,
which is not under src/.  `vars` is the per-variable stack of frames that
execute's SetVar arm writes through `context.vars[id].last_mut()`;
`get_var` returns "the key currently bound for variable id in this context"
(spec section 4.5), i.e. the binding in the top (last) frame, `none` when the
variable has no frame or an unbound one (where the source would panic). -/
structure Context where
  vars : List (List (Option ValueKey))
deriving DecidableEq, Repr

def Context.get_var (c : Context) (id : Nat) : Option ValueKey :=
  match (c.vars.getD id []).getLast? with
  | some (some k) => some k
  | _ => none

/-- The SetVar arm's write `*context.vars[id].last_mut().unwrap() = Some(key)`
(src/interpreter/interpreter.rs:133); `none` models the panics of the index and
the `unwrap` on an empty frame stack. -/
def Context.setVarTop (c : Context) (id : Nat) (k : ValueKey) : Option Context :=
  match c.vars.get? id with
  | none => none
  | some frames =>
    if frames.isEmpty then none
    else some ⟨c.vars.set id (frames.set (frames.length - 1) (some k))⟩

/-- `Globals` (src/interpreter/interpreter.rs:23); the heap slotmap is the
append-only list `memory`, and `FullContext` is modelled as the list of
contexts its iterator yields. -/
structure Globals where
  memory : List StoredValue
  types : List (String × ValueType)
  contexts : List Context

/-- `Globals::init` (src/interpreter/interpreter.rs:30-46): the seeded type
registry, in insertion order. -/
def initTypes : List (String × ValueType) :=
  [("int", .Int), ("float", .Float), ("string", .String), ("bool", .Bool),
   ("empty", .Empty), ("array", .Array), ("dictionary", .Dict), ("maybe", .Maybe),
   ("type_indicator", .TypeIndicator), ("pattern", .Pattern), ("group", .Group),
   ("trigger_function", .TriggerFunc), ("macro", .Macro)]

/-- Case-sensitive lookup in the type registry (an AHashMap in the source). -/
def typesLookup (types : List (String × ValueType)) (name : String) : Option ValueType :=
  match types with
  | [] => none
  | (n, t) :: rest => if n = name then some t else typesLookup rest name

/-- Modelled from the spec: `value_ops` lives in src/interpreter/value.rs, which
is not under src/.  Spec section 4.4 fixes the signatures and the TypeMismatch
failure; it leaves coercions open, so the model defines each operation on Int
operands only.  No claim depends on the arithmetic itself. -/
def value_ops.plus (a b : StoredValue) (area : CodeArea) : Except RuntimeError StoredValue :=
  match a.1, b.1 with
  | .Int x, .Int y => .ok (Value.Int (x + y), area)
  | _, _ => .error (.TypeMismatch [a, b] area)

def value_ops.minus (a b : StoredValue) (area : CodeArea) : Except RuntimeError StoredValue :=
  match a.1, b.1 with
  | .Int x, .Int y => .ok (Value.Int (x - y), area)
  | _, _ => .error (.TypeMismatch [a, b] area)

def value_ops.mult (a b : StoredValue) (area : CodeArea) : Except RuntimeError StoredValue :=
  match a.1, b.1 with
  | .Int x, .Int y => .ok (Value.Int (x * y), area)
  | _, _ => .error (.TypeMismatch [a, b] area)

def value_ops.div (a b : StoredValue) (area : CodeArea) : Except RuntimeError StoredValue :=
  match a.1, b.1 with
  | .Int x, .Int y => .ok (Value.Int (x / y), area)
  | _, _ => .error (.TypeMismatch [a, b] area)

def value_ops.modulo (a b : StoredValue) (area : CodeArea) : Except RuntimeError StoredValue :=
  match a.1, b.1 with
  | .Int x, .Int y => .ok (Value.Int (x % y), area)
  | _, _ => .error (.TypeMismatch [a, b] area)

def value_ops.pow (a b : StoredValue) (area : CodeArea) : Except RuntimeError StoredValue :=
  match a.1, b.1 with
  | .Int x, .Int y => .ok (Value.Int (x ^ y.toNat), area)
  | _, _ => .error (.TypeMismatch [a, b] area)

def value_ops.eq (a b : StoredValue) (area : CodeArea) : Except RuntimeError StoredValue :=
  match a.1, b.1 with
  | .Int x, .Int y => .ok (Value.Bool (x = y), area)
  | _, _ => .error (.TypeMismatch [a, b] area)

def value_ops.not_eq (a b : StoredValue) (area : CodeArea) : Except RuntimeError StoredValue :=
  match a.1, b.1 with
  | .Int x, .Int y => .ok (Value.Bool (x ≠ y), area)
  | _, _ => .error (.TypeMismatch [a, b] area)

def value_ops.greater (a b : StoredValue) (area : CodeArea) : Except RuntimeError StoredValue :=
  match a.1, b.1 with
  | .Int x, .Int y => .ok (Value.Bool (y < x), area)
  | _, _ => .error (.TypeMismatch [a, b] area)

def value_ops.greater_eq (a b : StoredValue) (area : CodeArea) : Except RuntimeError StoredValue :=
  match a.1, b.1 with
  | .Int x, .Int y => .ok (Value.Bool (y ≤ x), area)
  | _, _ => .error (.TypeMismatch [a, b] area)

def value_ops.lesser (a b : StoredValue) (area : CodeArea) : Except RuntimeError StoredValue :=
  match a.1, b.1 with
  | .Int x, .Int y => .ok (Value.Bool (x < y), area)
  | _, _ => .error (.TypeMismatch [a, b] area)

def value_ops.lesser_eq (a b : StoredValue) (area : CodeArea) : Except RuntimeError StoredValue :=
  match a.1, b.1 with
  | .Int x, .Int y => .ok (Value.Bool (x ≤ y), area)
  | _, _ => .error (.TypeMismatch [a, b] area)

def value_ops.unary_negate (a : StoredValue) (area : CodeArea) : Except RuntimeError StoredValue :=
  match a.1 with
  | .Int x => .ok (Value.Int (-x), area)
  | _ => .error (.TypeMismatch [a] area)

def value_ops.unary_not (a : StoredValue) (area : CodeArea) : Except RuntimeError StoredValue :=
  match a.1 with
  | .Bool b => .ok (Value.Bool (!b), area)
  | _ => .error (.TypeMismatch [a] area)

def value_ops.to_bool (a : StoredValue) : Except RuntimeError Bool :=
  match a.1 with
  | .Bool b => .ok b
  | _ => .error (.TypeMismatch [a] a.2)

/-- `n` successive `pop_clone!`s (src/interpreter/interpreter.rs:52): pop a key
and clone the stored value it refers to; the clones come out in pop order (top
of stack first).  `none` models the `unwrap` panic on an exhausted stack and a
dereference of a dangling key. -/
def popClones (mem : List StoredValue) (stack : List ValueKey) :
    Nat → Option (List StoredValue × List ValueKey)
  | 0 => some ([], stack)
  | n + 1 =>
    match stack with
    | [] => none
    | k :: rest =>
      match mem.get? k with
      | none => none
      | some sv =>
        match popClones mem rest n with
        | none => none
        | some (svs, rest') => some (sv :: svs, rest')

/-- AHashMap insert: replace an existing binding for the key, else append. -/
def dictInsert (m : List (String × StoredValue)) (key : String) (v : StoredValue) :
    List (String × StoredValue) :=
  match m with
  | [] => [(key, v)]
  | (k', v') :: rest =>
    if k' = key then (key, v) :: rest else (k', v') :: dictInsert rest key v

/-- Collecting an iterator of pairs into an AHashMap (later duplicates win),
as BuildDict's `.collect()` does. -/
def dictCollect (ps : List (String × StoredValue)) : List (String × StoredValue) :=
  ps.foldl (fun m p => dictInsert m p.1 p.2) []

/-- AHashMap lookup. -/
def dictLookup (m : List (String × StoredValue)) (key : String) : Option StoredValue :=
  match m with
  | [] => none
  | (k', v') :: rest => if k' = key then some v' else dictLookup rest key

/-- One optional `pop_clone!`, for MakeMacro's flagged pops. -/
def popOpt (mem : List StoredValue) (stack : List ValueKey) (flag : Bool) :
    Option (Option StoredValue × List ValueKey) :=
  if flag then
    match stack with
    | [] => none
    | k :: rest =>
      match mem.get? k with
      | none => none
      | some sv => some (some sv, rest)
  else some (none, stack)

/-- The argument-collection loop of MakeMacro
(src/interpreter/interpreter.rs:200-204): each descriptor is `(name, has_type,
has_default)`; the default is popped first, then the type pattern; the entry
pushed is `(name, type, default)`. -/
def macroArgsLoop (mem : List StoredValue) (stack : List ValueKey) :
    List (String × Bool × Bool) →
    Option (List (String × Option StoredValue × Option StoredValue) × List ValueKey)
  | [] => some ([], stack)
  | (name, hasTyp, hasDef) :: rest =>
    match popOpt mem stack hasDef with
    | none => none
    | some (d, stack1) =>
      match popOpt mem stack1 hasTyp with
      | none => none
      | some (t, stack2) =>
        match macroArgsLoop mem stack2 rest with
        | none => none
        | some (args, stack3) => some ((name, t, d) :: args, stack3)

/-- The outcome of dispatching one instruction: `ok` carries the updated
memory, context, operand stack and the next instruction index; `panic` models
`unwrap`/`todo!()` panics and out-of-bounds indexing. -/
inductive StepRes where
  | ok (mem : List StoredValue) (ctx : Context) (stack : List ValueKey) (i : Nat)
  | err (e : RuntimeError)
  | panic

/-- The `op_helper!` arms (src/interpreter/interpreter.rs:77-109): pop `b`, pop
`a`, apply the value op with the instruction's area, insert the result and push
its fresh key. -/
def binOpStep (op : StoredValue → StoredValue → CodeArea → Except RuntimeError StoredValue)
    (area : CodeArea) (mem : List StoredValue) (ctx : Context)
    (stack : List ValueKey) (i : Nat) : StepRes :=
  match stack with
  | [] => .panic
  | b :: rest =>
    match rest with
    | [] => .panic
    | a :: rest2 =>
      match mem.get? a, mem.get? b with
      | some sa, some sb =>
        match op sa sb area with
        | .ok v => .ok (mem ++ [v]) ctx (mem.length :: rest2) (i + 1)
        | .error e => .err e
      | _, _ => .panic

/-- The unary-operator arms (Negate, Not; src/interpreter/interpreter.rs:119-128). -/
def unOpStep (op : StoredValue → CodeArea → Except RuntimeError StoredValue)
    (area : CodeArea) (mem : List StoredValue) (ctx : Context)
    (stack : List ValueKey) (i : Nat) : StepRes :=
  match stack with
  | [] => .panic
  | a :: rest =>
    match mem.get? a with
    | none => .panic
    | some sa =>
      match op sa area with
      | .ok v => .ok (mem ++ [v]) ctx (mem.length :: rest) (i + 1)
      | .error e => .err e

/-- One dispatch of execute's decoding loop (src/interpreter/interpreter.rs:
74-275) for the instruction at index `i` of function `func`.  A jump sets the
next index itself (the source `continue`s); every other arm falls through to
`i + 1`. -/
def execStep (code : Code) (func : Nat) (types : List (String × ValueType))
    (mem : List StoredValue) (ctx : Context) (stack : List ValueKey) (i : Nat) : StepRes :=
  match instrAt code func i with
  | none => .panic
  | some instr =>
    let area := code.get_bytecode_area func i
    match instr with
    | .Plus => binOpStep value_ops.plus area mem ctx stack i
    | .Minus => binOpStep value_ops.minus area mem ctx stack i
    | .Mult => binOpStep value_ops.mult area mem ctx stack i
    | .Div => binOpStep value_ops.div area mem ctx stack i
    | .Mod => binOpStep value_ops.modulo area mem ctx stack i
    | .Pow => binOpStep value_ops.pow area mem ctx stack i
    | .Eq => binOpStep value_ops.eq area mem ctx stack i
    | .NotEq => binOpStep value_ops.not_eq area mem ctx stack i
    | .Greater => binOpStep value_ops.greater area mem ctx stack i
    | .GreaterEq => binOpStep value_ops.greater_eq area mem ctx stack i
    | .Lesser => binOpStep value_ops.lesser area mem ctx stack i
    | .LesserEq => binOpStep value_ops.lesser_eq area mem ctx stack i
    | .LoadConst id =>
      match code.constants.get? id with
      | none => .panic
      | some c => .ok (mem ++ [c.into_stored area]) ctx (mem.length :: stack) (i + 1)
    | .Negate => unOpStep value_ops.unary_negate area mem ctx stack i
    | .Not => unOpStep value_ops.unary_not area mem ctx stack i
    | .LoadVar id =>
      match ctx.get_var id with
      | none => .panic
      | some k =>
        match mem.get? k with
        | none => .panic
        | some _ => .ok mem ctx (k :: stack) (i + 1)
    | .SetVar id =>
      match stack with
      | [] => .panic
      | k :: rest =>
        match mem.get? k with
        | none => .panic
        | some sv =>
          match ctx.setVarTop id mem.length with
          | none => .panic
          | some ctx' => .ok (mem ++ [sv]) ctx' rest (i + 1)
    | .Print =>
      -- The source writes the popped value's string form to stdout
      -- (interpreter.rs:135-138); the text written is not modelled.
      match stack with
      | [] => .panic
      | k :: rest =>
        match mem.get? k with
        | none => .panic
        | some _ => .ok mem ctx rest (i + 1)
    | .LoadType id =>
      match code.names.get? id with
      | none => .panic
      | some name =>
        match typesLookup types name with
        | some typ =>
          .ok (mem ++ [(Value.TypeIndicator typ).into_stored area]) ctx
            (mem.length :: stack) (i + 1)
        | none => .err (.UndefinedType name area)
    | .BuildArray len =>
      match popClones mem stack len with
      | none => .panic
      | some (elems, rest) =>
        .ok (mem ++ [(Value.Array elems.reverse).into_stored area]) ctx
          (mem.length :: rest) (i + 1)
    | .PushEmpty =>
      .ok (mem ++ [Value.Empty.into_stored area]) ctx (mem.length :: stack) (i + 1)
    | .PopTop => .ok mem ctx stack.tail (i + 1)
    | .Jump id =>
      match code.destinations.get? id with
      | none => .panic
      | some d => .ok mem ctx stack d
    | .JumpIfFalse id =>
      match stack with
      | [] => .panic
      | k :: rest =>
        match mem.get? k with
        | none => .panic
        | some sv =>
          match value_ops.to_bool sv with
          | .error e => .err e
          | .ok true => .ok mem ctx rest (i + 1)
          | .ok false =>
            match code.destinations.get? id with
            | none => .panic
            | some d => .ok mem ctx rest d
    | .ToIter => .panic
    | .IterNext _ => .panic
    | .BuildDict id =>
      match code.name_sets.get? id with
      | none => .panic
      | some keys =>
        match popClones mem stack keys.length with
        | none => .panic
        | some (svs, rest) =>
          .ok (mem ++ [(Value.Dict (dictCollect (keys.zip svs))).into_stored area]) ctx
            (mem.length :: rest) (i + 1)
    | .Return => .panic
    | .Continue => .panic
    | .Break => .panic
    | .MakeMacro id =>
      match code.macro_build_info.get? id with
      | none => .panic
      | some (func_id, arg_info) =>
        match stack with
        | [] => .panic
        | k :: rest =>
          match mem.get? k with
          | none => .panic
          | some ret_type =>
            match macroArgsLoop mem rest arg_info with
            | none => .panic
            | some (args, rest2) =>
              .ok (mem ++ [(Value.Macro func_id args.reverse ret_type).into_stored area])
                ctx (mem.length :: rest2) (i + 1)
    | .PushAnyPattern =>
      .ok (mem ++ [(Value.Pattern .Any).into_stored area]) ctx (mem.length :: stack) (i + 1)
    | .MakeMacroPattern _ => .panic
    | .Index => .panic
    | .Call _ =>
      -- The Macro branch of Call (src/interpreter/interpreter.rs:223-235) pops
      -- the parameters and then hits todo!(), so every path through it panics;
      -- the embedding collapses it to panic directly.
      match stack with
      | [] => .panic
      | k :: _ =>
        match mem.get? k with
        | none => .panic
        | some base =>
          match base.1 with
          | .Macro _ _ _ => .panic
          | _ => .err (.CannotCall base area)
    | .TriggerFuncCall => .panic
    | .SaveContexts => .panic
    | .ReviseContexts => .panic
    | .MergeContexts => .ok mem ctx stack (i + 1)
    | .PushNone => .panic
    | .WrapMaybe => .panic
    | .PushContextGroup => .panic
    | .PopContextGroup => .panic
    | .PushTriggerFnValue => .panic
    | .TypeDef _ => .panic
    | .Impl _ => .panic
    | .Instance _ => .panic
    | .EnterScope => .ok mem ctx stack (i + 1)
    | .ExitScope => .ok mem ctx stack (i + 1)

/-- Outcome of running one context to completion. -/
inductive CtxRes where
  | done (mem : List StoredValue) (ctx : Context) (stack : List ValueKey)
  | err (e : RuntimeError)
  | panic
  | nofuel

/-- The inner `while i < len` loop of execute (src/interpreter/interpreter.rs:
76-275) for one context. -/
def execGo (fuel : Nat) (code : Code) (func : Nat) (types : List (String × ValueType))
    (mem : List StoredValue) (ctx : Context) (stack : List ValueKey) (i : Nat) : CtxRes :=
  match fuel with
  | 0 => .nofuel
  | f + 1 =>
    if i < (code.instrsOf func).length then
      match execStep code func types mem ctx stack i with
      | .ok mem' ctx' stack' i' => execGo f code func types mem' ctx' stack' i'
      | .err e => .err e
      | .panic => .panic
    else .done mem ctx stack

/-- Final outcome of execute: the heap, the contexts after their runs, and the
operand stack (which the source prints at the end). -/
inductive ExecRes where
  | ok (mem : List StoredValue) (ctxs : List Context) (stack : List ValueKey)
  | err (e : RuntimeError)
  | panic
  | nofuel

/-- The outer `for context in globals.contexts.iter()` loop of execute
(src/interpreter/interpreter.rs:74): each context starts at instruction 0; the
single operand stack and the heap persist across contexts. -/
def runContexts (fuel : Nat) (code : Code) (func : Nat)
    (types : List (String × ValueType)) :
    List StoredValue → List ValueKey → List Context → ExecRes
  | mem, stack, [] => .ok mem [] stack
  | mem, stack, c :: cs =>
    match execGo fuel code func types mem c stack 0 with
    | .done mem' c' stack' =>
      match runContexts fuel code func types mem' stack' cs with
      | .ok mem2 cs2 stack2 => .ok mem2 (c' :: cs2) stack2
      | r => r
    | .err e => .err e
    | .panic => .panic
    | .nofuel => .nofuel

/-- `execute` (src/interpreter/interpreter.rs:49): a fresh operand stack, then
the per-context instruction loop. -/
def execute (fuel : Nat) (g : Globals) (code : Code) (func : Nat) : ExecRes :=
  runContexts fuel code func g.types g.memory [] g.contexts

/-- Attach trivial spans and the terminating `Eof` the lexer guarantees. -/
def tokStream (l : List Token) : Tokens :=
  l.map (fun t => (t, 0, 0)) ++ [(.Eof, 0, 0)]

/-- `infix_prec` only takes the values of the non-Unary table rows and the
sentinel. -/
theorem infix_prec_cases (t : Token) :
    infix_prec t = 0 ∨ infix_prec t = 2 ∨ infix_prec t = 3 ∨ infix_prec t = 1000000 := by
  cases t <;> simp [infix_prec]

theorem infix_prec_le (t : Token) : infix_prec t ≤ 1000000 := by
  cases t <;> simp [infix_prec]

/-- The tokens of each non-Unary row. -/
theorem infix_prec_eq_zero (t : Token) (h : infix_prec t = 0) :
    t = .Plus ∨ t = .Minus := by
  cases t <;> simp_all [infix_prec]

theorem infix_prec_eq_two (t : Token) (h : infix_prec t = 2) :
    t = .Mult ∨ t = .Div ∨ t = .Mod := by
  cases t <;> simp_all [infix_prec]

theorem infix_prec_eq_three (t : Token) (h : infix_prec t = 3) :
    t = .Pow := by
  cases t <;> simp_all [infix_prec]

/-- C1 counterexample: on the concrete input `-a * b` the parser produces the
root `Unary(-, Op(a, *, b))` — the unary minus wraps the whole product — and
not the root `Op(Unary(-, a), *, b)` the claim asserts. -/
theorem c1_unary_counterexample :
    parseRootE (tokStream [.Minus, .Ident "a", .Mult, .Ident "b"]) =
      some (.Unary .Minus (.Op (.Var "a") .Mult (.Var "b"))) ∧
    parseRootE (tokStream [.Minus, .Ident "a", .Mult, .Ident "b"]) ≠
      some (.Op (.Unary .Minus (.Var "a")) .Mult (.Var "b")) := by
  refine ⟨rfl, ?_⟩
  intro h
  rw [show parseRootE (tokStream [.Minus, .Ident "a", .Mult, .Ident "b"]) =
        some (.Unary .Minus (.Op (.Var "a") .Mult (.Var "b"))) from rfl] at h
  injection h with h2
  injection h2

/-- C1 amended: the unary minus (row 1) binds tighter than its row-0 infix
peers but looser than the higher rows, so `-a + b` parses as
`Op(Unary(-, a), +, b)` while `-a * b` parses as `Unary(-, Op(a, *, b))` and
`-2 ^ 2` parses as `Unary(-, Op(2, ^, 2))`. -/
theorem c1_unary_amended (a b : String) :
    parseRootE (tokStream [.Minus, .Ident a, .Plus, .Ident b]) =
      some (.Op (.Unary .Minus (.Var a)) .Plus (.Var b)) ∧
    parseRootE (tokStream [.Minus, .Ident a, .Mult, .Ident b]) =
      some (.Unary .Minus (.Op (.Var a) .Mult (.Var b))) ∧
    parseRootE (tokStream [.Minus, .Int 2, .Pow, .Int 2]) =
      some (.Unary .Minus (.Op (.Lit (.Int 2)) .Pow (.Lit (.Int 2)))) :=
  ⟨rfl, rfl, rfl⟩

/-- C4: whenever `t2`'s row is strictly above `t1`'s row and both appear as
infix (non-Unary) operators, `a t1 b t2 c` parses with `t1` at the root and
`t2` nested to the right. -/
theorem c4_precedence (t1 t2 : Token) (a b c : String)
    (h1 : infix_prec t1 < infix_prec t2) (h2 : infix_prec t2 ≠ 1000000) :
    parseRootE (tokStream [.Ident a, t1, .Ident b, t2, .Ident c]) =
      some (.Op (.Var a) t1 (.Op (.Var b) t2 (.Var c))) := by
  have h2' : infix_prec t2 = 2 ∨ infix_prec t2 = 3 := by
    rcases infix_prec_cases t2 with h | h | h | h <;> omega
  have h1' : infix_prec t1 = 0 ∨ infix_prec t1 = 2 := by
    rcases infix_prec_cases t1 with h | h | h | h <;> omega
  rcases h1' with h1' | h1'
  · rcases infix_prec_eq_zero t1 h1' with rfl | rfl <;>
      rcases h2' with h2' | h2'
    · rcases infix_prec_eq_two t2 h2' with rfl | rfl | rfl <;> rfl
    · rcases infix_prec_eq_three t2 h2' with rfl; rfl
    · rcases infix_prec_eq_two t2 h2' with rfl | rfl | rfl <;> rfl
    · rcases infix_prec_eq_three t2 h2' with rfl; rfl
  · have h2'' : infix_prec t2 = 3 := by omega
    rcases infix_prec_eq_two t1 h1' with rfl | rfl | rfl <;>
      rcases infix_prec_eq_three t2 h2'' with rfl <;> rfl

/-- Witness for C4 at `a + b * c`. -/
theorem c4_precedence_witness :
    parseRootE (tokStream [.Ident "a", .Plus, .Ident "b", .Mult, .Ident "c"]) =
      some (.Op (.Var "a") .Plus (.Op (.Var "b") .Mult (.Var "c"))) :=
  c4_precedence .Plus .Mult "a" "b" "c" (by decide) (by decide)

/-- C5: `+` (LeftAssoc row) chains leftward and `^` (RightAssoc row) chains
rightward. -/
theorem c5_associativity (a b c : String) :
    parseRootE (tokStream [.Ident a, .Plus, .Ident b, .Plus, .Ident c]) =
      some (.Op (.Op (.Var a) .Plus (.Var b)) .Plus (.Var c)) ∧
    parseRootE (tokStream [.Ident a, .Pow, .Ident b, .Pow, .Ident c]) =
      some (.Op (.Var a) .Pow (.Op (.Var b) .Pow (.Var c))) :=
  ⟨rfl, rfl⟩

theorem PRes.bind_ok {α β : Type} (a : α) (f : α → PRes β) :
    (PRes.ok a >>= f) = f a := rfl

theorem tokIdx_zero (pos : Nat) : tokIdx pos 0 = pos := by
  simp [tokIdx]

theorem tokAt_eof_of_len_le (toks : Tokens) (pos : Nat) (h : toks.length ≤ pos) :
    tokAt toks pos 0 = .Eof := by
  unfold tokAt
  rw [tokIdx_zero, List.getD_eq_default _ _ h]

/-- `q` is reached from `p` by consuming exactly the run of consecutive `Eol`
tokens starting at `p`. -/
def EolRun (toks : Tokens) (p q : Nat) : Prop :=
  p ≤ q ∧ (∀ r, p ≤ r → r < q → tokAt toks r 0 = .Eol) ∧ tokAt toks q 0 ≠ .Eol

theorem skip_eols_spec (fuel : Nat) :
    ∀ (toks : Tokens) (pos : Nat), toks.length ≤ pos + fuel →
      EolRun toks pos (skip_eols fuel toks pos) := by
  induction fuel with
  | zero =>
    intro toks pos h
    simp only [skip_eols]
    exact ⟨Nat.le_refl _,
      fun r hr1 hr2 => absurd hr2 (Nat.not_lt.mpr hr1),
      by rw [tokAt_eof_of_len_le toks pos (by omega)]; simp⟩
  | succ f ih =>
    intro toks pos h
    by_cases he : tokAt toks pos 0 = .Eol
    · have hrec := ih toks (pos + 1) (by omega)
      simp only [skip_eols, he, if_pos]
      refine ⟨by have := hrec.1; omega, ?_, hrec.2.2⟩
      intro r hr1 hr2
      rcases Nat.eq_or_lt_of_le hr1 with rfl | hlt
      · exact he
      · exact hrec.2.1 r hlt hr2
    · simp only [skip_eols, he, if_neg, ite_false]
      exact ⟨Nat.le_refl _,
        fun r hr1 hr2 => absurd hr2 (Nat.not_lt.mpr hr1), he⟩

/-- C6: the terminator rule after any statement.  If the token before the
current position is not `}`, a missing semicolon raises `Expected ";"` and a
present one is consumed together with the whole following run of semicolons;
after a `}` no semicolon is required and the run (possibly empty) is likewise
consumed. -/
theorem c6_statement_terminator (toks : Tokens) (pos : Nat) :
    (tokAt toks pos (-1) ≠ .RBracket → tokAt toks pos 0 ≠ .Eol →
      stmt_terminator toks pos =
        .err (.Expected ";" (tokAt toks pos 0) ⟨spanAt toks pos 0⟩)) ∧
    (tokAt toks pos (-1) ≠ .RBracket → tokAt toks pos 0 = .Eol →
      ∃ q, stmt_terminator toks pos = .ok q ∧ pos < q ∧ EolRun toks pos q) ∧
    (tokAt toks pos (-1) = .RBracket →
      ∃ q, stmt_terminator toks pos = .ok q ∧ EolRun toks pos q) := by
  refine ⟨?_, ?_, ?_⟩
  · intro h1 h2
    simp [stmt_terminator, h1, h2]
  · intro h1 h2
    have hrec := skip_eols_spec toks.length toks (pos + 1) (by omega)
    refine ⟨skip_eols toks.length toks (pos + 1),
      by simp [stmt_terminator, h1, h2], by have := hrec.1; omega,
      ⟨by have := hrec.1; omega, ?_, hrec.2.2⟩⟩
    intro r hr1 hr2
    rcases Nat.eq_or_lt_of_le hr1 with rfl | hlt
    · exact h2
    · exact hrec.2.1 r hlt hr2
  · intro h1
    exact ⟨skip_eols toks.length toks pos, by simp [stmt_terminator, h1],
      skip_eols_spec toks.length toks pos (by omega)⟩

/-- Witness for C6: a missing semicolon after `1` raises `Expected ";"`; a
present semicolon (plus one more) is consumed up to position 3; after `}` no
semicolon is required and the single following semicolon is consumed. -/
theorem c6_statement_terminator_witness :
    stmt_terminator (tokStream [.Int 1]) 1 =
      .err (.Expected ";" .Eof ⟨(0, 0)⟩) ∧
    (∃ q, stmt_terminator [(.Int 1, 0, 0), (.Eol, 0, 0), (.Eol, 0, 0), (.Eof, 0, 0)] 1 =
        .ok q ∧ 1 < q ∧
        EolRun [(.Int 1, 0, 0), (.Eol, 0, 0), (.Eol, 0, 0), (.Eof, 0, 0)] 1 q) ∧
    (∃ q, stmt_terminator [(.RBracket, 0, 0), (.Eol, 0, 0), (.Eof, 0, 0)] 1 = .ok q ∧
        EolRun [(.RBracket, 0, 0), (.Eol, 0, 0), (.Eof, 0, 0)] 1 q) :=
  ⟨(c6_statement_terminator (tokStream [.Int 1]) 1).1 (by decide) (by decide),
   (c6_statement_terminator [(.Int 1, 0, 0), (.Eol, 0, 0), (.Eol, 0, 0), (.Eof, 0, 0)] 1).2.1
     (by decide) (by decide),
   (c6_statement_terminator [(.RBracket, 0, 0), (.Eol, 0, 0), (.Eof, 0, 0)] 1).2.2
     (by decide)⟩

/-- C7: array-literal element handling.  Concretely, `[1, 2, 3,]` (trailing
comma) parses to a three-element array and `[1 2]` raises `Expected "] or ,"`.
Generically, one iteration of the element loop: at `]` the loop ends consuming
it; after a parsed element the loop raises `Expected "] or ,"` exactly when the
next token is neither `]` nor `,`, continues into the closing `]` when it is
`]`, and skips a `,` and loops when it is `,`. -/
theorem c7_array_commas :
    parseRootE (tokStream
        [.LSqBracket, .Int 1, .Comma, .Int 2, .Comma, .Int 3, .Comma, .RSqBracket]) =
      some (.Arr [.Lit (.Int 1), .Lit (.Int 2), .Lit (.Int 3)]) ∧
    parse_expr 100 (tokStream [.LSqBracket, .Int 1, .Int 2, .RSqBracket]) ⟨[], []⟩ 0 =
      .err (.Expected "] or ," (.Int 2) ⟨(0, 0)⟩) ∧
    (∀ fuel toks ad pos acc, tokAt toks pos 0 = .RSqBracket →
      parse_array_elems (fuel + 1) toks ad pos acc = .ok (acc, pos + 1, ad)) ∧
    (∀ fuel toks ad pos acc k p2 ad2, tokAt toks pos 0 ≠ .RSqBracket →
      parse_expr fuel toks ad pos = .ok (k, p2, ad2) →
      tokAt toks p2 0 ≠ .RSqBracket → tokAt toks p2 0 ≠ .Comma →
      parse_array_elems (fuel + 1) toks ad pos acc =
        .err (.Expected "] or ," (tokAt toks p2 0) ⟨spanAt toks p2 0⟩)) ∧
    (∀ fuel toks ad pos acc k p2 ad2, tokAt toks pos 0 ≠ .RSqBracket →
      parse_expr fuel toks ad pos = .ok (k, p2, ad2) →
      tokAt toks p2 0 = .RSqBracket →
      parse_array_elems (fuel + 1) toks ad pos acc =
        parse_array_elems fuel toks ad2 p2 (acc ++ [k])) ∧
    (∀ fuel toks ad pos acc k p2 ad2, tokAt toks pos 0 ≠ .RSqBracket →
      parse_expr fuel toks ad pos = .ok (k, p2, ad2) →
      tokAt toks p2 0 = .Comma →
      parse_array_elems (fuel + 1) toks ad pos acc =
        parse_array_elems fuel toks ad2 (p2 + 1) (acc ++ [k])) := by
  refine ⟨rfl, rfl, ?_, ?_, ?_, ?_⟩
  · intro fuel toks ad pos acc h
    simp [parse_array_elems, h]
  · intro fuel toks ad pos acc k p2 ad2 h0 hexpr h1 h2
    simp only [parse_array_elems, if_neg h0]
    rw [hexpr, PRes.bind_ok]
    cases htok : tokAt toks p2 0 <;>
      first
        | rfl
        | exact absurd htok h1
        | exact absurd htok h2
  · intro fuel toks ad pos acc k p2 ad2 h0 hexpr h1
    simp only [parse_array_elems, if_neg h0]
    rw [hexpr, PRes.bind_ok, h1]
  · intro fuel toks ad pos acc k p2 ad2 h0 hexpr h1
    simp only [parse_array_elems, if_neg h0]
    rw [hexpr, PRes.bind_ok, h1]

/-- Witness for C7's generic parts: on `[1 2]` (entering the loop at the `1`),
the error fires; on `[]`-like input (loop entered at `]`) the loop ends; on
`[1, ...` the loop skips the comma and continues. -/
theorem c7_array_commas_witness :
    parse_array_elems 51 (tokStream [.LSqBracket, .Int 1, .Int 2, .RSqBracket]) ⟨[], []⟩ 1 [] =
      .err (.Expected "] or ," (.Int 2) ⟨(0, 0)⟩) ∧
    parse_array_elems 7 (tokStream [.RSqBracket]) ⟨[], []⟩ 0 [] = .ok ([], 1, ⟨[], []⟩) ∧
    parse_array_elems 51 (tokStream [.Int 1, .Comma, .RSqBracket]) ⟨[], []⟩ 0 [] =
      parse_array_elems 50 (tokStream [.Int 1, .Comma, .RSqBracket])
        ⟨[(.Literal (.Int 1), ⟨(0, 0)⟩)], []⟩ 2 [0] :=
  ⟨c7_array_commas.2.2.2.1 50 (tokStream [.LSqBracket, .Int 1, .Int 2, .RSqBracket])
      ⟨[], []⟩ 1 [] 0 2 ⟨[(.Literal (.Int 1), ⟨(0, 0)⟩)], []⟩
      (by decide) rfl (by decide) (by decide),
   c7_array_commas.2.2.1 6 (tokStream [.RSqBracket]) ⟨[], []⟩ 0 [] (by decide),
   c7_array_commas.2.2.2.2.2 50 (tokStream [.Int 1, .Comma, .RSqBracket]) ⟨[], []⟩ 0 []
      0 1 ⟨[(.Literal (.Int 1), ⟨(0, 0)⟩)], []⟩ (by decide) rfl (by decide)⟩

/-- C9: `parse_statements` stops (without consuming) at a `}` token, and the
top-level `parse` returns whatever statement sequence `parse_statements`
produced without any end-of-file check, so a stray `}` and everything after it
are silently ignored. -/
theorem c9_parse_no_eof_check :
    (∀ fuel toks ad pos, tokAt toks pos 0 = .RBracket →
      parse_statements (fuel + 1) toks ad pos = .ok ([], pos, ad)) ∧
    (∀ fuel toks stmts p ad,
      parse_statements fuel toks ⟨[], []⟩ 0 = .ok (stmts, p, ad) →
      tokAt toks p 0 = .RBracket →
      parse fuel toks = .ok (stmts, ad)) := by
  constructor
  · intro fuel toks ad pos h
    simp [parse_statements, h]
  · intro fuel toks stmts p ad h _
    unfold parse
    rw [h, PRes.bind_ok]

def toksC9 : Tokens :=
  [(.Int 1, 0, 0), (.Eol, 0, 0), (.RBracket, 0, 0), (.Assign, 0, 0), (.Assign, 0, 0),
   (.Eof, 0, 0)]

/-- Witness for C9: `1 ; } = =` — the prefix `1 ;` parses as one statement, the
stray `}` stops `parse_statements` at position 2, and `parse` succeeds, never
looking at the two `=` tokens or noticing that `Eof` was not reached. -/
theorem c9_parse_no_eof_check_witness :
    parse_statements 1 toksC9 ⟨[], []⟩ 2 = .ok ([], 2, ⟨[], []⟩) ∧
    parse 100 toksC9 =
      .ok ([0], ⟨[(.Literal (.Int 1), ⟨(0, 0)⟩)], [(.Expr 0, ⟨(0, 0)⟩)]⟩) :=
  ⟨c9_parse_no_eof_check.1 0 toksC9 ⟨[], []⟩ 2 (by decide),
   c9_parse_no_eof_check.2 100 toksC9 [0] 2
      ⟨[(.Literal (.Int 1), ⟨(0, 0)⟩)], [(.Expr 0, ⟨(0, 0)⟩)]⟩ rfl (by decide)⟩

theorem popClones_length (mem : List StoredValue) :
    ∀ (n : Nat) (stack : List ValueKey) (svs : List StoredValue) (rest : List ValueKey),
      popClones mem stack n = some (svs, rest) → svs.length = n := by
  intro n
  induction n with
  | zero =>
    intro stack svs rest h
    simp only [popClones, Option.some.injEq, Prod.mk.injEq] at h
    rw [← h.1]
    rfl
  | succ m ih =>
    intro stack svs rest h
    match stack with
    | [] => simp [popClones] at h
    | k :: r =>
      simp only [popClones] at h
      cases hm : mem.get? k with
      | none => rw [hm] at h; simp at h
      | some sv =>
        rw [hm] at h
        cases hp : popClones mem r m with
        | none => rw [hp] at h; simp at h
        | some pr =>
          rw [hp] at h
          obtain ⟨svs', rest'⟩ := pr
          simp only [Option.some.injEq, Prod.mk.injEq] at h
          rw [← h.1]
          simp [ih r svs' rest' hp]

theorem dictInsert_of_not_mem (m : List (String × StoredValue)) (key : String)
    (v : StoredValue) (h : ∀ q ∈ m, q.1 ≠ key) : dictInsert m key v = m ++ [(key, v)] := by
  induction m with
  | nil => rfl
  | cons hd tl ih =>
    obtain ⟨k', v'⟩ := hd
    simp only [dictInsert]
    rw [if_neg (h (k', v') (by simp))]
    rw [ih (fun q hq => h q (by simp [hq]))]
    simp

theorem foldl_dictInsert_nodup :
    ∀ (ps acc : List (String × StoredValue)),
      (ps.map Prod.fst).Nodup →
      (∀ p ∈ ps, ∀ q ∈ acc, q.1 ≠ p.1) →
      ps.foldl (fun m p => dictInsert m p.1 p.2) acc = acc ++ ps := by
  intro ps
  induction ps with
  | nil => intro acc _ _; simp
  | cons hd tl ih =>
    intro acc hnodup hdisj
    simp only [List.foldl_cons]
    rw [dictInsert_of_not_mem acc hd.1 hd.2 (fun q hq => hdisj hd (by simp) q hq)]
    rw [ih (acc ++ [hd]) (by simp at hnodup; exact hnodup.2) ?_]
    · simp
    · intro p hp q hq
      rcases List.mem_append.mp hq with hq | hq
      · exact hdisj p (by simp [hp]) q hq
      · simp at hq
        rw [hq]
        simp only [List.map_cons, List.nodup_cons] at hnodup
        intro hcontra
        exact hnodup.1 (hcontra ▸ List.mem_map_of_mem Prod.fst hp)

/-- Collecting pairs with pairwise-distinct keys into the hash map keeps them
as they are. -/
theorem dictCollect_of_nodup (ps : List (String × StoredValue))
    (h : (ps.map Prod.fst).Nodup) : dictCollect ps = ps := by
  unfold dictCollect
  rw [foldl_dictInsert_nodup ps [] h (by simp)]
  simp

/-- C2 amended: BuildDict pops exactly `keys.length` values and pairs the i-th
key with the i-th *popped* value — the first key with the top of the stack,
i.e. the most recently pushed value; no reversal happens.  (`svs` is the list
of popped clones in pop order, per `popClones`.) -/
theorem c2_builddict_pairing (code : Code) (func : Nat)
    (types : List (String × ValueType)) (mem : List StoredValue) (ctx : Context)
    (stack : List ValueKey) (i id : Nat) (keys : List String)
    (svs : List StoredValue) (rest : List ValueKey)
    (hinstr : instrAt code func i = some (.BuildDict id))
    (hkeys : code.name_sets.get? id = some keys)
    (hnodup : keys.Nodup)
    (hpop : popClones mem stack keys.length = some (svs, rest)) :
    execStep code func types mem ctx stack i =
      .ok (mem ++ [(Value.Dict (keys.zip svs), code.get_bytecode_area func i)]) ctx
        (mem.length :: rest) (i + 1) := by
  have hlen : svs.length = keys.length := popClones_length mem _ stack svs rest hpop
  have hfst : (keys.zip svs).map Prod.fst = keys := List.map_fst_zip _ _ (by omega)
  unfold execStep
  rw [hinstr]
  simp only [hkeys, hpop, Value.into_stored]
  rw [dictCollect_of_nodup _ (by rw [hfst]; exact hnodup)]

def a0 : CodeArea := ⟨(0, 0)⟩

/-- The C2 program: push constant 1, push constant 2, then `BuildDict` with the
ordered key set `["a", "b"]`. -/
def codeC2 : Code :=
  ⟨[[(.LoadConst 0, a0), (.LoadConst 1, a0), (.BuildDict 0, a0)]],
   [.Int 1, .Int 2], [], [["a", "b"]], [], []⟩

def gC2 : Globals := ⟨[], initTypes, [⟨[]⟩]⟩

def execMem (r : ExecRes) : List StoredValue :=
  match r with
  | .ok mem _ _ => mem
  | _ => []

def execStack (r : ExecRes) : List ValueKey :=
  match r with
  | .ok _ _ s => s
  | _ => []

/-- Integer found under `name` in the dictionary stored at key `k`. -/
def dictIntAt (mem : List StoredValue) (k : ValueKey) (name : String) : Option Int :=
  match mem.get? k with
  | some (.Dict es, _) =>
    match dictLookup es name with
    | some (.Int n, _) => some n
    | _ => none
  | _ => none

/-- C2 counterexample: pushing 1 then 2 and building a dict with ordered keys
`["a", "b"]` binds "a" to 2 (the value on top of the stack, pushed last) and
"b" to 1 — not "a" to 1 as the claimed reversal would give. -/
theorem c2_builddict_counterexample :
    execStack (execute 100 gC2 codeC2 0) = [2] ∧
    dictIntAt (execMem (execute 100 gC2 codeC2 0)) 2 "a" = some 2 ∧
    dictIntAt (execMem (execute 100 gC2 codeC2 0)) 2 "b" = some 1 ∧
    dictIntAt (execMem (execute 100 gC2 codeC2 0)) 2 "a" ≠ some 1 :=
  ⟨rfl, rfl, rfl, by decide⟩

/-- Witness for the amended C2 theorem at the state codeC2 reaches before its
BuildDict: memory holds 1 and 2, the stack is `[1, 0]` (key 1, the 2, on top). -/
theorem c2_builddict_pairing_witness :
    execStep codeC2 0 initTypes [(.Int 1, a0), (.Int 2, a0)] ⟨[]⟩ [1, 0] 2 =
      .ok [(.Int 1, a0), (.Int 2, a0),
           (Value.Dict [("a", .Int 2, a0), ("b", .Int 1, a0)], a0)] ⟨[]⟩ [2] 3 :=
  c2_builddict_pairing codeC2 0 initTypes [(.Int 1, a0), (.Int 2, a0)] ⟨[]⟩ [1, 0] 2 0
    ["a", "b"] [(.Int 2, a0), (.Int 1, a0)] [] rfl rfl (by decide) rfl

/-- The C8 program: `let x = 10` (SetVar 0), `y = x` (LoadVar 0, SetVar 1),
then mutate `y` (`y = 99`, LoadConst + SetVar 1). -/
def codeC8 : Code :=
  ⟨[[(.LoadConst 0, a0), (.SetVar 0, a0), (.LoadVar 0, a0), (.SetVar 1, a0),
     (.LoadConst 1, a0), (.SetVar 1, a0)]],
   [.Int 10, .Int 99], [], [], [], []⟩

def gC8 : Globals := ⟨[], initTypes, [⟨[[none], [none]]⟩]⟩

def memC8final : List StoredValue :=
  [(.Int 10, a0), (.Int 10, a0), (.Int 10, a0), (.Int 99, a0), (.Int 99, a0)]

/-- C8: `LoadVar` pushes exactly the currently bound key with the heap
untouched (so two successive `LoadVar id` push the same heap entry); `SetVar`
pops, clones into a fresh heap slot and rebinds only the top frame of `id`,
leaving every other variable's frames and every existing heap slot unchanged;
and in the concrete scenario `x := 10; y := x; y := 99`, `x` still refers to an
unchanged 10. -/
theorem c8_loadvar_setvar :
    (∀ code func types mem ctx stack i id k sv,
      instrAt code func i = some (.LoadVar id) →
      Context.get_var ctx id = some k → mem.get? k = some sv →
      execStep code func types mem ctx stack i = .ok mem ctx (k :: stack) (i + 1)) ∧
    (∀ code func types mem ctx stack i id k sv,
      instrAt code func i = some (.LoadVar id) →
      instrAt code func (i + 1) = some (.LoadVar id) →
      Context.get_var ctx id = some k → mem.get? k = some sv →
      execStep code func types mem ctx stack i = .ok mem ctx (k :: stack) (i + 1) ∧
      execStep code func types mem ctx (k :: stack) (i + 1) =
        .ok mem ctx (k :: k :: stack) (i + 2)) ∧
    (∀ code func types mem ctx stack i id kTop sv ctx',
      instrAt code func i = some (.SetVar id) →
      mem.get? kTop = some sv →
      Context.setVarTop ctx id mem.length = some ctx' →
      execStep code func types mem ctx (kTop :: stack) i =
        .ok (mem ++ [sv]) ctx' stack (i + 1)) ∧
    (∀ ctx id k ctx', Context.setVarTop ctx id k = some ctx' →
      Context.get_var ctx' id = some k ∧
      ∀ j, j ≠ id → ctx'.vars.get? j = ctx.vars.get? j) ∧
    (∀ (mem : List StoredValue) (sv : StoredValue) (j : Nat), j < mem.length →
      (mem ++ [sv]).get? j = mem.get? j) ∧
    (execute 100 gC8 codeC8 0 = .ok memC8final [⟨[[some 1], [some 4]]⟩] [] ∧
      Context.get_var ⟨[[some 1], [some 4]]⟩ 0 = some 1 ∧
      memC8final.get? 1 = some (.Int 10, a0)) := by
  refine ⟨?_, ?_, ?_, ?_, ?_, rfl, rfl, rfl⟩
  · intro code func types mem ctx stack i id k sv hinstr hvar hmem
    unfold execStep
    rw [hinstr]
    simp only [hvar, hmem]
  · intro code func types mem ctx stack i id k sv hinstr hinstr2 hvar hmem
    constructor
    · unfold execStep
      rw [hinstr]
      simp only [hvar, hmem]
    · unfold execStep
      rw [hinstr2]
      simp only [hvar, hmem]
  · intro code func types mem ctx stack i id kTop sv ctx' hinstr hmem hset
    unfold execStep
    rw [hinstr]
    simp only [hmem, hset]
  · intro ctx id k ctx' hset
    unfold Context.setVarTop at hset
    split at hset
    · exact absurd hset (by simp)
    · rename_i frames hg
      split at hset
      · exact absurd hset (by simp)
      · rename_i hemp
        simp only [Option.some.injEq] at hset
        obtain ⟨hlt, _⟩ := List.get?_eq_some.mp hg
        have hflen : 0 < frames.length := by
          cases frames with
          | nil => simp at hemp
          | cons a l => simp
        constructor
        · rw [← hset]
          unfold Context.get_var
          have hgd : (ctx.vars.set id (frames.set (frames.length - 1) (some k))).getD id [] =
              frames.set (frames.length - 1) (some k) := by
            show ((ctx.vars.set id _).get? id).getD [] = _
            rw [List.get?_set_eq_of_lt _ (by simpa using hlt)]
            rfl
          rw [hgd, List.getLast?_eq_get?, List.length_set,
            List.get?_set_eq_of_lt _ (by omega)]
        · intro j hj
          rw [← hset]
          exact List.get?_set_ne _ _ (fun h => hj h.symm)
  · intro mem sv j hj
    exact List.get?_append hj

/-- Witness for C8 at the states codeC8 reaches: `LoadVar 0` at i = 2 pushes
key 1 with memory unchanged, and `SetVar 1` at i = 3 clones it into fresh key 2
and rebinds only variable 1. -/
theorem c8_loadvar_setvar_witness :
    execStep codeC8 0 initTypes [(.Int 10, a0), (.Int 10, a0)]
        ⟨[[some 1], [none]]⟩ [] 2 =
      .ok [(.Int 10, a0), (.Int 10, a0)] ⟨[[some 1], [none]]⟩ [1] 3 ∧
    execStep codeC8 0 initTypes [(.Int 10, a0), (.Int 10, a0)]
        ⟨[[some 1], [none]]⟩ [1] 3 =
      .ok [(.Int 10, a0), (.Int 10, a0), (.Int 10, a0)] ⟨[[some 1], [some 2]]⟩ [] 4 :=
  ⟨c8_loadvar_setvar.1 codeC8 0 initTypes [(.Int 10, a0), (.Int 10, a0)]
      ⟨[[some 1], [none]]⟩ [] 2 0 1 (.Int 10, a0) rfl rfl rfl,
   c8_loadvar_setvar.2.2.1 codeC8 0 initTypes [(.Int 10, a0), (.Int 10, a0)]
      ⟨[[some 1], [none]]⟩ [] 3 1 1 (.Int 10, a0) ⟨[[some 1], [some 2]]⟩ rfl rfl rfl⟩

/-- C10: dispatching `PopTop` on an empty operand stack is a silent no-op
(`Vec::pop` discards its `Option`): memory, context and stack are unchanged and
execution moves to `i + 1`.  Every other implemented stack-consuming opcode
panics (`unwrap`) on an empty stack. -/
theorem c10_poptop_empty :
    (∀ code func types mem ctx i, instrAt code func i = some .PopTop →
      execStep code func types mem ctx [] i = .ok mem ctx [] (i + 1)) ∧
    (∀ code func types mem ctx i instr id n,
      instr ∈ ([.Plus, .Minus, .Mult, .Div, .Mod, .Pow, .Eq, .NotEq, .Greater,
        .GreaterEq, .Lesser, .LesserEq, .Negate, .Not, .SetVar id, .Print,
        .JumpIfFalse id, .BuildArray (n + 1), .Call id] : List Instruction) →
      instrAt code func i = some instr →
      execStep code func types mem ctx [] i = .panic) ∧
    (∀ code func types mem ctx i id keys,
      instrAt code func i = some (.BuildDict id) →
      code.name_sets.get? id = some keys → keys ≠ [] →
      execStep code func types mem ctx [] i = .panic) ∧
    (∀ code func types mem ctx i id info,
      instrAt code func i = some (.MakeMacro id) →
      code.macro_build_info.get? id = some info →
      execStep code func types mem ctx [] i = .panic) := by
  refine ⟨?_, ?_, ?_, ?_⟩
  · intro code func types mem ctx i h
    unfold execStep
    rw [h]
    rfl
  · intro code func types mem ctx i instr id n hmem hinstr
    simp only [List.mem_cons, List.not_mem_nil, or_false] at hmem
    rcases hmem with rfl | rfl | rfl | rfl | rfl | rfl | rfl | rfl | rfl | rfl | rfl
      | rfl | rfl | rfl | rfl | rfl | rfl | rfl | rfl <;>
      (unfold execStep; rw [hinstr]; try rfl)
  · intro code func types mem ctx i id keys hinstr hkeys hne
    cases keys with
    | nil => exact absurd rfl hne
    | cons k ks =>
      unfold execStep
      rw [hinstr]
      simp only [hkeys]
      rfl
  · intro code func types mem ctx i id info hinstr hinfo
    obtain ⟨fid, arginfo⟩ := info
    unfold execStep
    rw [hinstr]
    simp only [hinfo]
    try rfl

/-- Witness for C10: in a program with `PopTop` then `Plus`, the `PopTop` at
i = 0 with an empty stack is a no-op and the `Plus` at i = 1 with an empty
stack panics. -/
theorem c10_poptop_empty_witness :
    execStep (⟨[[(.PopTop, a0), (.Plus, a0)]], [], [], [], [], []⟩ : Code) 0
        initTypes [] ⟨[]⟩ [] 0 = .ok [] ⟨[]⟩ [] 1 ∧
    execStep (⟨[[(.PopTop, a0), (.Plus, a0)]], [], [], [], [], []⟩ : Code) 0
        initTypes [] ⟨[]⟩ [] 1 = .panic :=
  ⟨c10_poptop_empty.1 ⟨[[(.PopTop, a0), (.Plus, a0)]], [], [], [], [], []⟩ 0
      initTypes [] ⟨[]⟩ 0 rfl,
   c10_poptop_empty.2.1 ⟨[[(.PopTop, a0), (.Plus, a0)]], [], [], [], [], []⟩ 0
      initTypes [] ⟨[]⟩ 1 .Plus 0 0 (by decide) rfl⟩
